import Mathlib

/-!
Verification of the snake-game core: the simulation kernel (snake.ts),
the spawn planner, and the move evaluator (strategies/utils.ts).

Modelling conventions:
- JS integer-valued numbers are `Int`; the JS remainder operator `%`
  (sign of the dividend) is `Int.tmod`; `Math.floor` division by a
  positive divisor is Euclidean division `/` on `Int`.
- A JS `Set<string>` of `pointKey` strings is modelled as a `List Point`
  with membership, which is faithful because `pointKey = "x,y"` is
  injective on integer points.
- A JS `Map<string, v>` is modelled as an association list consed at the
  front on every `set`, so lookup finds the most recent binding, matching
  `Map` overwrite semantics.
- The injected RNG, a nullary closure returning fresh values in `[0,1)`
  on successive calls, is modelled as a stream `ℕ → ℚ` of its successive
  return values; a caller that consumed `n` values passes the shifted
  stream to the next consumer.
- JS `while` loops are written as fuel-bounded recursion with fuel large
  enough that it is never exhausted on the loop's actual reachable
  states (bounds justified in comments at each definition).
-/

/-- Cartesian grid point with unbounded integer coordinates (JS numbers). -/
structure Point where
  x : Int
  y : Int
deriving DecidableEq, Repr

/-- The four headings of the snake. -/
inductive Direction where
  | up
  | down
  | left
  | right
deriving DecidableEq, Repr

/-- Lifecycle states of a game. -/
inductive GameStatus where
  | ready
  | running
  | paused
  | gameover
deriving DecidableEq, Repr

/-- Full game state. The three trailing optional fields are annotations the
driving loop writes; the kernel copies them verbatim and never reads them. -/
structure GameState where
  snake : List Point
  direction : Direction
  food : Point
  obstacles : List Point
  lastSpawnedObstacle : Option Point
  score : Int
  fruitsEaten : Int
  status : GameStatus
  lastEatSimTime : Option ℚ := none
  timeSinceLastFruit : Option ℚ := none
  timeoutMs : Option ℚ := none
deriving DecidableEq, Repr

/-- Stream of successive RNG outputs, each expected in `[0,1)`. -/
def Rng : Type := ℕ → ℚ

/-- Drops the first `n` outputs of an RNG stream, standing for `n` calls
already made by an earlier consumer. -/
def shiftRng (rng : Rng) (n : ℕ) : Rng := fun i => rng (i + n)

/-- Mirrors `isOpposite`: true iff the two directions are 180 degrees apart. -/
def isOpposite (a b : Direction) : Bool :=
  (a = .up ∧ b = .down) ∨ (a = .down ∧ b = .up) ∨
  (a = .left ∧ b = .right) ∨ (a = .right ∧ b = .left)

/-- Mirrors `movePoint`: unit step along one axis (screen coordinates,
`up` decreases y). -/
def movePoint (point : Point) (direction : Direction) : Point :=
  match direction with
  | .up => ⟨point.x, point.y - 1⟩
  | .down => ⟨point.x, point.y + 1⟩
  | .left => ⟨point.x - 1, point.y⟩
  | .right => ⟨point.x + 1, point.y⟩

/-- Mirrors `wrapPoint`: `((p.x+size)%size, (p.y+size)%size)` with the JS
remainder operator, i.e. `Int.tmod`. -/
def wrapPoint (point : Point) (size : Int) : Point :=
  ⟨(point.x + size).tmod size, (point.y + size).tmod size⟩

/-- Mirrors `isInnerPoint`: strictly inside the outer ring. -/
def isInnerPoint (point : Point) (size : Int) : Bool :=
  point.x > 0 ∧ point.x < size - 1 ∧ point.y > 0 ∧ point.y < size - 1

/-- Mirrors `orthogonalNeighbors`: wrapped +x, -x, +y, -y neighbors, in
the kernel's order. -/
def orthogonalNeighbors (point : Point) (size : Int) : List Point :=
  [wrapPoint ⟨point.x + 1, point.y⟩ size,
   wrapPoint ⟨point.x - 1, point.y⟩ size,
   wrapPoint ⟨point.x, point.y + 1⟩ size,
   wrapPoint ⟨point.x, point.y - 1⟩ size]

/-- Mirrors `freeExitCount`: how many entries of the neighbor list are not
occupied, counted with multiplicity exactly as the JS loop does. -/
def freeExitCount (point : Point) (occupied : List Point) (size : Int) : ℕ :=
  (orthogonalNeighbors point size).countP (fun n => !(occupied.contains n))

/-- One step of the dead-end-delta loop body in `createsAdditionalDeadEnds`:
carries the set of neighbor keys already seen and the running delta.
Natural subtraction `exitsBefore - 1` is the JS `Math.max(0, exitsBefore - 1)`. -/
def deadEndDeltaStep (occupied : List Point) (size : Int)
    (acc : List Point × Int) (neighbor : Point) : List Point × Int :=
  if neighbor ∈ acc.1 ∨ neighbor ∈ occupied then acc
  else
    let exitsBefore := freeExitCount neighbor occupied size
    let exitsAfter := exitsBefore - 1
    let wasDeadEnd := exitsBefore ≤ 1
    let isDeadEnd := exitsAfter ≤ 1
    (neighbor :: acc.1,
     if ¬wasDeadEnd ∧ isDeadEnd then acc.2 + 1
     else if wasDeadEnd ∧ ¬isDeadEnd then acc.2 - 1
     else acc.2)

/-- Mirrors `createsAdditionalDeadEnds`: local dead-end delta over the
candidate and its direct neighbors; true means the candidate is rejected. -/
def createsAdditionalDeadEnds (occupied : List Point) (candidate : Point)
    (size : Int) : Bool :=
  if candidate ∈ occupied then true
  else
    let candidateDelta : Int :=
      if freeExitCount candidate occupied size ≤ 1 then -1 else 0
    let loopDelta :=
      ((orthogonalNeighbors candidate size).foldl
        (deadEndDeltaStep occupied size) ([], 0)).2
    candidateDelta + loopDelta > 0

/-- Manhattan distance to the board center `(size-1)/2`, which is
half-integral on even-sized boards, so it lives in `ℚ` exactly as the JS
float computation does (half-integers are exact in both). -/
def centerDist (size : Int) (p : Point) : ℚ :=
  |(p.x : ℚ) - ((size : ℚ) - 1) / 2| + |(p.y : ℚ) - ((size : ℚ) - 1) / 2|

/-- Comparator step of the `reduce` in `firstObstacleCandidate`: keeps the
candidate closer to the board center, ties broken by smaller y, then
smaller x. -/
def pickBetter (size : Int) (best current : Point) : Point :=
  if centerDist size current < centerDist size best then current
  else if centerDist size current > centerDist size best then best
  else if current.y < best.y then current
  else if current.y > best.y then best
  else if current.x < best.x then current
  else best

/-- Mirrors `firstObstacleCandidate`: `options.reduce(pickBetter)`. The JS
`reduce` throws on an empty array; the kernel only calls this with a
non-empty list, so the empty case returns an arbitrary point. -/
def firstObstacleCandidate (options : List Point) (size : Int) : Point :=
  match options with
  | [] => ⟨0, 0⟩
  | o :: rest => rest.foldl (pickBetter size) o

/-- Grid cells enumerated the way both spawn loops do: y (rows) in the
outer loop, x in the inner loop, each from 0 to size-1. -/
def allPoints (size : Int) : List Point :=
  (List.range size.toNat).flatMap fun y =>
    (List.range size.toNat).map fun x => ⟨(x : Int), (y : Int)⟩

/-- JS `pool[Math.min(Math.floor(q * pool.length), pool.length - 1)]`.
For rng outputs in `[0,1)` the floor is nonnegative, so `Int.toNat`
changes nothing on reachable inputs. -/
def clampedIndex (q : ℚ) (len : ℕ) : ℕ :=
  min (Int.floor (q * (len : ℚ))).toNat (len - 1)

/-- Mirrors `spawnFood`. The source builds `options` and `safeOptions` in
one pass over the grid; filtering the row-major cell list twice yields the
same two lists in the same order. The inlined per-cell neighbor/exit count
in the source is exactly `freeExitCount`. -/
def spawnFood (snake : List Point) (size : Int) (rng : Rng) : Point :=
  let options := (allPoints size).filter (fun p => !(snake.contains p))
  let safeOptions := options.filter (fun p => 2 ≤ freeExitCount p snake size)
  let pool := if safeOptions.isEmpty = false then safeOptions else options
  if pool.isEmpty then ⟨-1, -1⟩
  else pool.getD (clampedIndex (rng 0) pool.length) ⟨0, 0⟩

/-- Loop body of `spawnObstacles`: `remaining` counts iterations left,
`i` is the JS loop index, `k` the number of rng values consumed so far,
`occupied` the growing occupied set. Returning `[]` is the JS `break`. -/
def spawnObstaclesGo (size : Int) (rng : Rng) :
    ℕ → ℕ → ℕ → List Point → List Point
  | 0, _, _, _ => []
  | remaining + 1, i, k, occupied =>
    let options := (allPoints size).filter
      (fun p => !(occupied.contains p) ∧ isInnerPoint p size)
    if options.isEmpty then []
    else
      let safeOptions := options.filter
        (fun p => !(createsAdditionalDeadEnds occupied p size))
      if safeOptions.isEmpty then []
      else
        let pick :=
          if i = 0 then firstObstacleCandidate safeOptions size
          else safeOptions.getD (clampedIndex (rng k) safeOptions.length) ⟨0, 0⟩
        pick :: spawnObstaclesGo size rng remaining (i + 1)
          (if i = 0 then k else k + 1) (pick :: occupied)

/-- Mirrors `spawnObstacles`: places up to `count` obstacles against a
growing occupied set seeded with the snake. -/
def spawnObstacles (snake : List Point) (size count : Int) (rng : Rng) :
    List Point :=
  if count ≤ 0 then []
  else spawnObstaclesGo size rng count.toNat 0 0 snake

/-- Mirrors `spawnObstacle`: single obstacle placement used by the kernel
mid-game; the pick among surviving candidates is random. -/
def spawnObstacle (occupiedPoints : List Point) (size : Int) (rng : Rng) :
    Option Point :=
  let options := (allPoints size).filter
    (fun p => !(occupiedPoints.contains p) ∧ isInnerPoint p size)
  if options.isEmpty then none
  else
    let safeOptions := options.filter
      (fun p => !(createsAdditionalDeadEnds occupiedPoints p size))
    if safeOptions.isEmpty then none
    else some (safeOptions.getD (clampedIndex (rng 0) safeOptions.length) ⟨0, 0⟩)

/-- Mirrors `createInitialState`. `Math.floor(size / 2)` is Euclidean
division by 2. No input validation is performed by the source. -/
def createInitialState (size obstacleCount : Int) (rng : Rng) : GameState :=
  let mid := size / 2
  let snake : List Point := [⟨mid, mid⟩, ⟨mid - 1, mid⟩, ⟨mid - 2, mid⟩]
  let initialFood : Point := ⟨mid, max 1 (mid - 3)⟩
  let obstacles := spawnObstacles (snake ++ [initialFood]) size obstacleCount rng
  { snake := snake
    direction := .right
    food := initialFood
    obstacles := obstacles
    lastSpawnedObstacle := none
    score := 0
    fruitsEaten := 0
    status := .ready }

/-- Mirrors `applyDirection`. -/
def applyDirection (state : GameState) (direction : Direction) : GameState :=
  if isOpposite state.direction direction then state
  else if state.status = .ready then
    { state with direction := direction, status := .running }
  else { state with direction := direction }

/-- Mirrors `stepGame`. On a fruit that triggers an obstacle spawn, the JS
rng is called first inside `spawnObstacle` (exactly when it returns a
point) and then inside `spawnFood`; the stream is shifted accordingly. -/
def stepGame (state : GameState) (size : Int) (rng : Rng) : GameState :=
  if state.status = .running then
    let head := state.snake.headD ⟨0, 0⟩
    let nextHead := wrapPoint (movePoint head state.direction) size
    let bodyToCheck := state.snake.dropLast
    if nextHead ∈ bodyToCheck ∨ nextHead ∈ state.obstacles then
      { state with status := .gameover }
    else if nextHead.x = state.food.x ∧ nextHead.y = state.food.y then
      let nextSnake := nextHead :: state.snake
      let nextFruits := state.fruitsEaten + 1
      let shouldSpawnObstacle := nextFruits.tmod 5 = 0
      let nextObstacle :=
        if shouldSpawnObstacle then
          spawnObstacle (nextSnake ++ state.obstacles) size rng
        else none
      let obstacles :=
        match nextObstacle with
        | some o => state.obstacles ++ [o]
        | none => state.obstacles
      let lastSpawnedObstacle :=
        match nextObstacle with
        | some o => some o
        | none => state.lastSpawnedObstacle
      let foodRng := if nextObstacle.isSome then shiftRng rng 1 else rng
      let nextFood := spawnFood (nextSnake ++ obstacles) size foodRng
      let noFood := nextFood.x < 0
      { state with
          snake := nextSnake
          food := nextFood
          obstacles := obstacles
          lastSpawnedObstacle := lastSpawnedObstacle
          score := state.score + 1
          fruitsEaten := nextFruits
          status := if noFood then .gameover else state.status }
    else { state with snake := (nextHead :: state.snake).dropLast }
  else state

/-- Mirrors `togglePause`. -/
def togglePause (state : GameState) : GameState :=
  if state.status = .running then { state with status := .paused }
  else if state.status = .paused then { state with status := .running }
  else state

/-- Sample terminal state shared by the C7 theorem, witness and
counterexample. -/
def gameoverSample : GameState :=
  { snake := [⟨1, 1⟩, ⟨0, 1⟩], direction := .up, food := ⟨3, 3⟩,
    obstacles := [], lastSpawnedObstacle := none, score := 0,
    fruitsEaten := 0, status := .gameover }

/-- Lexicographic comparison key used by the first-obstacle rule: smaller
center distance first, then smaller y, then smaller x. -/
def keyLe (size : Int) (p q : Point) : Prop :=
  centerDist size p < centerDist size q ∨
  (centerDist size p = centerDist size q ∧
    (p.y < q.y ∨ (p.y = q.y ∧ p.x ≤ q.x)))

/-- The surviving candidate pool of the first iteration of
`spawnObstaclesGo` (and of `spawnObstacle`): free interior cells that do
not create additional dead ends. -/
def firstSafeOptions (occupied : List Point) (size : Int) : List Point :=
  ((allPoints size).filter
      (fun p => !(occupied.contains p) ∧ isInnerPoint p size)).filter
    (fun p => !(createsAdditionalDeadEnds occupied p size))

/-- Integer-scaled center distance: twice `centerDist`, avoiding rational
arithmetic so that concrete instances evaluate by `decide`. -/
def centerDist2 (size : Int) (p : Point) : Int :=
  |2 * p.x - (size - 1)| + |2 * p.y - (size - 1)|

/-- Integer-arithmetic twin of `pickBetter`, used only to evaluate the
comparator on concrete inputs. -/
def pickBetterZ (size : Int) (b c : Point) : Point :=
  if centerDist2 size c < centerDist2 size b then c
  else if centerDist2 size c > centerDist2 size b then b
  else if c.y < b.y then c
  else if c.y > b.y then b
  else if c.x < b.x then c
  else b

/-- Indicator of the restricted dead-end measure for one cell: 1 when the
cell is unoccupied and has at most one unoccupied orthogonal neighbor.
The occupancy restriction matches the planner's delta loop, which skips
occupied neighbors; it is what the amended C5 is stated over. -/
def freeDeadInd (occupied : List Point) (size : Int) (p : Point) : ℕ :=
  if p ∉ occupied ∧ freeExitCount p occupied size ≤ 1 then 1 else 0

/-- Restricted dead-end count of a list of cells against an occupancy
set: the number of unoccupied cells among them whose free orthogonal
neighbor count is at most 1. This is the measure of the amended C5. -/
def deadEndCount (occupied : List Point) (size : Int) (cells : List Point) :
    ℕ :=
  (cells.map (freeDeadInd occupied size)).sum

/-- The dead-end count exactly as the claim words it: the number of cells
with at most one free orthogonal neighbor, occupied cells included. The
original C5 is stated over this measure, and the code violates it. -/
def allCellDeadEndCount (occupied : List Point) (size : Int)
    (cells : List Point) : ℕ :=
  (cells.map
    (fun p => if freeExitCount p occupied size ≤ 1 then 1 else 0)).sum

/-- The per-neighbor contribution of the dead-end-delta loop, extracted
from `deadEndDeltaStep` for reasoning about the fold. -/
def neighborContrib (occupied : List Point) (size : Int) (n : Point) : Int :=
  if n ∈ occupied then 0
  else
    let exitsBefore := freeExitCount n occupied size
    let exitsAfter := exitsBefore - 1
    if ¬(exitsBefore ≤ 1) ∧ exitsAfter ≤ 1 then 1
    else if exitsBefore ≤ 1 ∧ ¬(exitsAfter ≤ 1) then -1
    else 0

/-- Per-direction verdict record produced by `evaluateMove`. -/
structure MoveEvaluation where
  direction : Direction
  pathLength : Option ℕ
  safe : Bool
  space : ℕ
deriving DecidableEq, Repr

/-- Mirrors `directions`: the fixed evaluation order of the evaluator. -/
def directions : List Direction := [.up, .down, .left, .right]

/-- Mirrors `directionVectors`. -/
def directionVector (d : Direction) : Point :=
  match d with
  | .up => ⟨0, -1⟩
  | .down => ⟨0, 1⟩
  | .left => ⟨-1, 0⟩
  | .right => ⟨1, 0⟩

/-- Mirrors `add`. -/
def add (a b : Point) : Point := ⟨a.x + b.x, a.y + b.y⟩

/-- Mirrors the evaluator's `neighbors`: wrapped neighbors in the order
up, down, left, right. -/
def neighbors (point : Point) (size : Int) : List Point :=
  directions.map (fun dir => wrapPoint (add point (directionVector dir)) size)

/-- Loop of `floodFillCount`. Each iteration dequeues one entry; entries
are the start plus pushes, and pushes happen only from a fresh visit of
one of at most size * size wrapped cells, four per visit, so
4 * size^2 + 2 fuel is never exhausted on reachable inputs. -/
def floodLoop (size : Int) (blocked : List Point) :
    ℕ → List Point → List Point → List Point
  | 0, _, visited => visited
  | _ + 1, [], visited => visited
  | fuel + 1, current :: rest, visited =>
    if current ∈ visited ∨ current ∈ blocked then
      floodLoop size blocked fuel rest visited
    else
      let visited' := current :: visited
      let toAdd := (neighbors current size).filter
        (fun n => n ∉ visited' ∧ n ∉ blocked)
      floodLoop size blocked fuel (rest ++ toAdd) visited'

/-- Mirrors `floodFillCount`: size of the visited set of the BFS flood
fill from `start` over non-blocked cells (visited entries are pairwise
distinct by the visit guard, so the list length is the set size). -/
def floodFillCount (start : Point) (size : Int) (blocked : List Point) : ℕ :=
  (floodLoop size blocked (4 * size.toNat * size.toNat + 2) [start] []).length

/-- Association-list lookup standing for JS `Map.get`; the newest binding
is consed at the front, so the first hit is the most recent write. -/
def alookup {α : Type} (l : List (Point × α)) (p : Point) : Option α :=
  match l with
  | [] => none
  | (q, v) :: rest => if q = p then some v else alookup rest p

/-- Mirrors `buildFreeTimes`: body cell at index i is blocked until tick
`snake.length - i`; on duplicate cells the later index wins, like
`Map.set` in the source's forEach. -/
def buildFreeTimes (snake : List Point) : List (Point × Int) :=
  snake.enum.foldl
    (fun acc iv => (iv.2, (snake.length : Int) - iv.1) :: acc) []

/-- State of the timed BFS: pending queue, parent map and distance map. -/
structure BfsState where
  queue : List Point
  cameFrom : List (Point × Option Point)
  distances : List (Point × Int)

/-- Neighbor expansion step of `bfsPathWithTiming`'s inner loop: skip
cells already reached or on obstacles, skip body cells whose free time is
after the arrival tick, otherwise record parent and distance and enqueue. -/
def bfsExpand (obstacleList : List Point) (freeTimes : List (Point × Int))
    (current : Point) (dist : Int) (st : BfsState) (next : Point) :
    BfsState :=
  if (alookup st.cameFrom next).isSome ∨ next ∈ obstacleList then st
  else
    let arrival := dist + 1
    match alookup freeTimes next with
    | some freeAt =>
      if arrival < freeAt then st
      else
        ⟨st.queue ++ [next], (next, some current) :: st.cameFrom,
         (next, arrival) :: st.distances⟩
    | none =>
      ⟨st.queue ++ [next], (next, some current) :: st.cameFrom,
       (next, arrival) :: st.distances⟩

/-- Main loop of `bfsPathWithTiming`: dequeue, stop on the target, expand
neighbors otherwise. Every enqueued cell first enters `cameFrom` and no
cell enters twice, so iterations never exceed size^2 + 1 on reachable
inputs and the fuel is never exhausted. -/
def bfsLoop (target : Point) (size : Int) (obstacleList : List Point)
    (freeTimes : List (Point × Int)) : ℕ → BfsState → BfsState
  | 0, st => st
  | fuel + 1, st =>
    match st.queue with
    | [] => st
    | current :: rest =>
      if current = target then { st with queue := rest }
      else
        let dist := (alookup st.distances current).getD 0
        bfsLoop target size obstacleList freeTimes fuel
          ((neighbors current size).foldl
            (bfsExpand obstacleList freeTimes current dist)
            { st with queue := rest })

/-- Path reconstruction of `bfsPathWithTiming`, from the target back along
parents (in the source this walk ends when `cameFrom.get` yields null);
the chain from a cell at BFS distance d has exactly d + 1 cells, so the
fuel taken from the recorded distance is never exhausted. -/
def reconstructRev (cameFrom : List (Point × Option Point)) :
    Option Point → ℕ → List Point
  | none, _ => []
  | some _, 0 => []
  | some k, fuel + 1 =>
    k :: reconstructRev cameFrom ((alookup cameFrom k).join) fuel

/-- Mirrors `bfsPathWithTiming`: breadth-first search over the torus where
obstacles are hard-blocked and snake cells are blocked until their free
time; returns the start-to-target path or none. -/
def bfsPathWithTiming (start target : Point) (size : Int)
    (snake obstacles : List Point) : Option (List Point) :=
  let freeTimes := buildFreeTimes snake
  let init : BfsState := ⟨[start], [(start, none)], [(start, 0)]⟩
  let final := bfsLoop target size obstacles freeTimes
    (size.toNat * size.toNat + 1) init
  if (alookup final.cameFrom target).isSome then
    some ((reconstructRev final.cameFrom (some target)
      (((alookup final.distances target).getD 0).toNat + 1)).reverse)
  else none

/-- Mirrors `stepSnake`: prepend the new head, drop the tail unless the
head landed on food. -/
def stepSnake (snake : List Point) (nextHead food : Point) : List Point :=
  if nextHead = food then nextHead :: snake
  else (nextHead :: snake).dropLast

/-- Mirrors `simulateSnakePath`: walk every step of the path after its
first cell, growing only on the food cell. -/
def simulateSnakePath (snake path : List Point) (food : Point) :
    List Point :=
  (path.drop 1).foldl
    (fun acc nextHead =>
      if nextHead = food then nextHead :: acc
      else (nextHead :: acc).dropLast)
    snake

/-- Mirrors `hasPathToTail`: a timed path exists from head to tail. -/
def hasPathToTail (snake : List Point) (size : Int)
    (obstacles : List Point) : Bool :=
  (bfsPathWithTiming (snake.headD ⟨0, 0⟩) (snake.getLastD ⟨0, 0⟩) size snake
    obstacles).isSome

/-- Mirrors `evaluateMove`: the per-direction verdict builder. -/
def evaluateMove (state : GameState) (size : Int) (direction : Direction) :
    Option MoveEvaluation :=
  if isOpposite state.direction direction then none
  else
    let head := state.snake.headD ⟨0, 0⟩
    let blockedForMove := state.snake.dropLast ++ state.obstacles
    let nextHead := wrapPoint (movePoint head direction) size
    if nextHead ∈ blockedForMove then none
    else
      let nextSnake := stepSnake state.snake nextHead state.food
      match bfsPathWithTiming nextHead state.food size nextSnake
          state.obstacles with
      | some pathFromNext =>
        let fullPath := head :: pathFromNext
        let simulatedSnake :=
          simulateSnakePath state.snake fullPath state.food
        let safe := hasPathToTail simulatedSnake size state.obstacles
        let blockedAfterFood := simulatedSnake.dropLast ++ state.obstacles
        let space := floodFillCount (simulatedSnake.headD ⟨0, 0⟩) size
          blockedAfterFood
        some ⟨direction, some pathFromNext.length, safe, space⟩
      | none =>
        let blockedAfterStep := nextSnake.dropLast ++ state.obstacles
        some ⟨direction, none, false,
          floodFillCount nextHead size blockedAfterStep⟩

/-- Loop invariant of the timed BFS. `start` is the seeded source cell and
`FT` the free-time map of the snake body. Every recorded distance is the
parent's distance plus one, the source sits at distance 0, and every
non-source entry was admitted only at or after its free time. -/
structure BfsInv (start : Point) (FT : List (Point × Int)) (st : BfsState) :
    Prop where
  keys : ∀ p, (alookup st.cameFrom p).isSome ↔ (alookup st.distances p).isSome
  startParent : alookup st.cameFrom start = some none
  startDist : alookup st.distances start = some 0
  parentNone : ∀ p, alookup st.cameFrom p = some none → p = start
  parentSome : ∀ p q, alookup st.cameFrom p = some (some q) →
    ∃ dp dq, alookup st.distances p = some dp ∧
      alookup st.distances q = some dq ∧ dp = dq + 1 ∧
      ∀ f, alookup FT p = some f → f ≤ dp
  queueKeys : ∀ p, p ∈ st.queue → (alookup st.distances p).isSome = true
  distNonneg : ∀ p dp, alookup st.distances p = some dp → 0 ≤ dp

/-- One wrapped coordinate is in range provided the raw coordinate is at
least `-size`, which makes the dividend of `tmod` nonnegative. -/
theorem wrap_coord_range (a size : Int) (hs : 0 < size) (ha : -size ≤ a) :
    0 ≤ (a + size).tmod size ∧ (a + size).tmod size < size := by
  rw [Int.tmod_eq_emod (by omega) (by omega)]
  constructor
  · exact Int.emod_nonneg _ (by omega)
  · exact Int.emod_lt_of_pos _ hs

/-- C8 counterexample: the claim quantifies over arbitrary integer
coordinates, but the JS remainder keeps the dividend's sign, so a
coordinate below `-size` wraps to a negative value: starting from
x = -10 on a grid of size 5, one step left wraps to x = -1, outside
`[0, 5)`. -/
theorem c8_counterexample :
    ¬ 0 ≤ (wrapPoint (movePoint ⟨-10, 0⟩ .left) 5).x := by decide

/-- C8 amended: for every point whose coordinates are at least `1 - s`
(in particular every in-bounds point), every size `s > 0` and every
direction, `wrapPoint (movePoint p d) s` has both coordinates in `[0, s)`. -/
theorem c8_wrap_bounds (p : Point) (s : Int) (d : Direction)
    (hs : 0 < s) (hx : 1 - s ≤ p.x) (hy : 1 - s ≤ p.y) :
    0 ≤ (wrapPoint (movePoint p d) s).x ∧ (wrapPoint (movePoint p d) s).x < s ∧
    0 ≤ (wrapPoint (movePoint p d) s).y ∧ (wrapPoint (movePoint p d) s).y < s := by
  cases d <;>
    simp only [movePoint, wrapPoint] <;>
    exact ⟨(wrap_coord_range _ _ hs (by omega)).1,
           (wrap_coord_range _ _ hs (by omega)).2,
           (wrap_coord_range _ _ hs (by omega)).1,
           (wrap_coord_range _ _ hs (by omega)).2⟩

/-- C8 amended witness at p = (0,0), s = 5, d = up. -/
theorem c8_witness :
    (0:Int) < 5 ∧ (1:Int) - 5 ≤ 0 ∧
    (0 ≤ (wrapPoint (movePoint ⟨0, 0⟩ .up) 5).x ∧
     (wrapPoint (movePoint ⟨0, 0⟩ .up) 5).x < 5 ∧
     0 ≤ (wrapPoint (movePoint ⟨0, 0⟩ .up) 5).y ∧
     (wrapPoint (movePoint ⟨0, 0⟩ .up) 5).y < 5) :=
  ⟨by decide, by decide,
   c8_wrap_bounds ⟨0, 0⟩ 5 .up (by decide) (by decide) (by decide)⟩

/-- Points are equal exactly when both coordinates agree, mirroring the
componentwise food comparison in the kernel. -/
theorem point_eq_iff (p q : Point) : p = q ↔ (p.x = q.x ∧ p.y = q.y) := by
  cases p; cases q; simp

/-- C1: on a running state whose wrapped next head hits the body (tail cell
excluded) or an obstacle, `stepGame` only flips the status to gameover and
leaves every other field unchanged. -/
theorem c1_collision_gameover (state : GameState) (size : Int) (rng : Rng)
    (hrun : state.status = .running) (hne : state.snake ≠ [])
    (hcol :
      wrapPoint (movePoint (state.snake.headD ⟨0, 0⟩) state.direction) size
          ∈ state.snake.dropLast ∨
      wrapPoint (movePoint (state.snake.headD ⟨0, 0⟩) state.direction) size
          ∈ state.obstacles) :
    stepGame state size rng = { state with status := .gameover } := by
  unfold stepGame
  simp only [hrun, if_true, reduceIte]
  rw [if_pos hcol]

/-- C1 witness: running two-segment snake at (1,1) heading right into an
obstacle at (2,1) on a 5-grid. -/
theorem c1_witness :
    stepGame
      { snake := [⟨1, 1⟩, ⟨0, 1⟩], direction := .right, food := ⟨3, 3⟩,
        obstacles := [⟨2, 1⟩], lastSpawnedObstacle := none, score := 0,
        fruitsEaten := 0, status := .running } 5 (fun _ => 0) =
      { snake := [⟨1, 1⟩, ⟨0, 1⟩], direction := .right, food := ⟨3, 3⟩,
        obstacles := [⟨2, 1⟩], lastSpawnedObstacle := none, score := 0,
        fruitsEaten := 0, status := .gameover } :=
  c1_collision_gameover _ 5 _ rfl (by decide) (Or.inr (by decide))

/-- C6: on a running state, the snake length after `stepGame` grows by one
exactly when the wrapped next head equals the food and no collision occurs,
and stays unchanged otherwise (including the collision case). -/
theorem c6_snake_length (state : GameState) (size : Int) (rng : Rng)
    (hrun : state.status = .running) (hne : state.snake ≠ []) :
    (stepGame state size rng).snake.length =
      (let nh := wrapPoint (movePoint (state.snake.headD ⟨0, 0⟩)
                   state.direction) size
       if (nh ∉ state.snake.dropLast ∧ nh ∉ state.obstacles) ∧ nh = state.food
       then state.snake.length + 1
       else state.snake.length) := by
  unfold stepGame
  simp only [hrun, if_true, reduceIte]
  set nh := wrapPoint (movePoint (state.snake.headD ⟨0, 0⟩)
    state.direction) size with hnh
  by_cases hc : nh ∈ state.snake.dropLast ∨ nh ∈ state.obstacles
  · rw [if_pos hc]
    have : ¬ ((nh ∉ state.snake.dropLast ∧ nh ∉ state.obstacles) ∧
        nh = state.food) := by tauto
    rw [if_neg this]
  · rw [if_neg hc]
    push_neg at hc
    by_cases hf : nh.x = state.food.x ∧ nh.y = state.food.y
    · have hcond : (nh ∉ state.snake.dropLast ∧ nh ∉ state.obstacles) ∧
          nh = state.food := ⟨hc, (point_eq_iff _ _).mpr hf⟩
      rw [if_pos hf, if_pos hcond]
      simp
    · rw [if_neg hf, if_neg]
      · simp [List.length_dropLast]
      · intro h
        exact hf ((point_eq_iff _ _).mp h.2)

/-- C6 witness: eating the food at (2,1) grows the snake from 2 to 3. -/
theorem c6_witness :
    (stepGame
      { snake := [⟨1, 1⟩, ⟨0, 1⟩], direction := .right, food := ⟨2, 1⟩,
        obstacles := [], lastSpawnedObstacle := none, score := 0,
        fruitsEaten := 0, status := .running } 5 (fun _ => 0)).snake.length
      = 3 := by
  rw [c6_snake_length _ 5 (fun _ => 0) rfl (by decide)]
  decide

/-- C7 counterexample: `applyDirection` on a gameover state still commits a
new (non-opposite) heading, so the claim that every kernel operation leaves
a gameover state untouched is false. -/
theorem c7_counterexample :
    applyDirection gameoverSample .left ≠ gameoverSample := by decide

/-- C7 amended: on a gameover state, `stepGame` and `togglePause` are
no-ops; `applyDirection` is a no-op only for the opposite heading and
otherwise changes exactly the direction field. -/
theorem c7_gameover_behavior (state : GameState)
    (h : state.status = .gameover) :
    (∀ size rng, stepGame state size rng = state) ∧
    togglePause state = state ∧
    (∀ d, applyDirection state d =
      if isOpposite state.direction d then state
      else { state with direction := d }) := by
  refine ⟨fun size rng => ?_, ?_, fun d => ?_⟩
  · unfold stepGame; simp [h]
  · unfold togglePause; simp [h]
  · unfold applyDirection
    by_cases hop : isOpposite state.direction d
    · simp [hop]
    · simp [hop, h]

/-- C7 witness for the amended statement on the sample terminal state. -/
theorem c7_witness :
    stepGame gameoverSample 5 (fun _ => 0) = gameoverSample ∧
    togglePause gameoverSample = gameoverSample ∧
    applyDirection gameoverSample .left =
      { gameoverSample with direction := .left } := by
  have h := c7_gameover_behavior gameoverSample rfl
  refine ⟨h.1 5 (fun _ => 0), h.2.1, ?_⟩
  rw [h.2.2 .left]
  decide

/-- C10 counterexample: `createInitialState` called with non-positive grid
size 0 and negative obstacle budget -1 does not fail fast; it returns an
ordinary ready state. -/
theorem c10_counterexample :
    createInitialState 0 (-1) (fun _ => 0) =
      { snake := [⟨0, 0⟩, ⟨-1, 0⟩, ⟨-2, 0⟩], direction := .right,
        food := ⟨0, 1⟩, obstacles := [], lastSpawnedObstacle := none,
        score := 0, fruitsEaten := 0, status := .ready } := by decide

theorem keyLe_refl (size : Int) (p : Point) : keyLe size p p :=
  Or.inr ⟨rfl, Or.inr ⟨rfl, le_refl _⟩⟩

theorem keyLe_trans {size : Int} {a b c : Point}
    (h1 : keyLe size a b) (h2 : keyLe size b c) : keyLe size a c := by
  rcases h1 with h1 | ⟨e1, h1⟩ <;> rcases h2 with h2 | ⟨e2, h2⟩
  · exact Or.inl (lt_trans h1 h2)
  · exact Or.inl (e2 ▸ h1)
  · exact Or.inl (e1 ▸ h2)
  · refine Or.inr ⟨e1.trans e2, ?_⟩
    rcases h1 with h1 | ⟨f1, h1⟩ <;> rcases h2 with h2 | ⟨f2, h2⟩
    · exact Or.inl (lt_trans h1 h2)
    · exact Or.inl (f2 ▸ h1)
    · exact Or.inl (f1 ▸ h2)
    · exact Or.inr ⟨f1.trans f2, le_trans h1 h2⟩

theorem pickBetter_eq_or (size : Int) (b c : Point) :
    pickBetter size b c = b ∨ pickBetter size b c = c := by
  unfold pickBetter
  split_ifs <;> simp

theorem pickBetter_keyLe_left (size : Int) (b c : Point) :
    keyLe size (pickBetter size b c) b := by
  unfold pickBetter
  split_ifs with h1 h2 h3 h4 h5
  · exact Or.inl h1
  · exact keyLe_refl size b
  · exact Or.inr ⟨le_antisymm (not_lt.mp h2) (not_lt.mp h1), Or.inl h3⟩
  · exact keyLe_refl size b
  · exact Or.inr ⟨le_antisymm (not_lt.mp h2) (not_lt.mp h1),
      Or.inr ⟨by omega, le_of_lt h5⟩⟩
  · exact keyLe_refl size b

theorem pickBetter_keyLe_right (size : Int) (b c : Point) :
    keyLe size (pickBetter size b c) c := by
  unfold pickBetter
  split_ifs with h1 h2 h3 h4 h5
  · exact keyLe_refl size c
  · exact Or.inl h2
  · exact keyLe_refl size c
  · exact Or.inr ⟨le_antisymm (not_lt.mp h1) (not_lt.mp h2), Or.inl h4⟩
  · exact keyLe_refl size c
  · exact Or.inr ⟨le_antisymm (not_lt.mp h1) (not_lt.mp h2),
      Or.inr ⟨by omega, by omega⟩⟩

/-- Folding the comparator over a list yields an element of the list that
is minimal for the lexicographic key. -/
theorem foldl_pickBetter_min (size : Int) (l : List Point) (b : Point) :
    l.foldl (pickBetter size) b ∈ b :: l ∧
    ∀ q ∈ b :: l, keyLe size (l.foldl (pickBetter size) b) q := by
  induction l generalizing b with
  | nil =>
    refine ⟨by simp, ?_⟩
    intro q hq
    simp only [List.mem_singleton] at hq
    subst hq
    exact keyLe_refl size q
  | cons a t ih =>
    simp only [List.foldl_cons]
    obtain ⟨hmem, hmin⟩ := ih (pickBetter size b a)
    constructor
    · rcases List.mem_cons.mp hmem with h | h
      · rcases pickBetter_eq_or size b a with hb | ha
        · rw [h, hb]; exact List.mem_cons_self _ _
        · rw [h, ha]; simp
      · simp [List.mem_cons, h]
    · intro q hq
      have hfold := hmin (pickBetter size b a) (List.mem_cons_self _ _)
      rcases List.mem_cons.mp hq with h | h
      · subst h
        exact keyLe_trans hfold (pickBetter_keyLe_left size q a)
      · rcases List.mem_cons.mp h with h' | h'
        · subst h'
          exact keyLe_trans hfold (pickBetter_keyLe_right size b q)
        · exact hmin q (List.mem_cons_of_mem _ h')

/-- The reduce-based pick is the key-minimal element of a non-empty
candidate list. -/
theorem firstObstacleCandidate_spec (size : Int) (l : List Point)
    (h : l ≠ []) :
    firstObstacleCandidate l size ∈ l ∧
    ∀ q ∈ l, keyLe size (firstObstacleCandidate l size) q := by
  match l with
  | o :: rest => exact foldl_pickBetter_min size rest o

theorem centerDist_cast (size : Int) (p : Point) :
    centerDist size p = (centerDist2 size p : ℚ) / 2 := by
  unfold centerDist centerDist2
  have h : ∀ a b : ℚ, |a - b / 2| = |2 * a - b| / 2 := fun a b => by
    rw [show a - b / 2 = (2 * a - b) / 2 by ring, abs_div]
    norm_num
  rw [h, h]
  push_cast
  ring

theorem centerDist_lt_iff (size : Int) (p q : Point) :
    centerDist size p < centerDist size q ↔
    centerDist2 size p < centerDist2 size q := by
  rw [centerDist_cast, centerDist_cast,
    div_lt_div_iff_of_pos_right (by norm_num : (0 : ℚ) < 2)]
  exact Int.cast_lt

theorem pickBetter_eq_pickBetterZ (size : Int) (b c : Point) :
    pickBetter size b c = pickBetterZ size b c := by
  unfold pickBetter pickBetterZ
  simp only [gt_iff_lt, centerDist_lt_iff]

/-- C9 counterexample: the kernel's mid-game single placement
`spawnObstacle` picks among surviving candidates with the rng, not with
the deterministic center-closest rule: on an empty 5-grid two rngs give
two different obstacles, and neither rule-following rng exists since the
deterministic rule would give the center (2,2). -/
theorem c9_counterexample :
    spawnObstacle [] 5 (fun _ => (9 : ℚ) / 10) = some ⟨3, 3⟩ ∧
    spawnObstacle [] 5 (fun _ => 0) = some ⟨1, 1⟩ ∧
    firstObstacleCandidate (firstSafeOptions [] 5) 5 = ⟨2, 2⟩ := by
  have hsafe : ((allPoints 5).filter
      (fun p => !(([] : List Point).contains p) ∧ isInnerPoint p 5)).filter
        (fun p => !(createsAdditionalDeadEnds [] p 5))
      = [⟨1, 1⟩, ⟨2, 1⟩, ⟨3, 1⟩, ⟨1, 2⟩, ⟨2, 2⟩, ⟨3, 2⟩, ⟨1, 3⟩, ⟨2, 3⟩,
         ⟨3, 3⟩] := by decide
  have hpb : pickBetter 5 = pickBetterZ 5 :=
    funext fun b => funext fun c => pickBetter_eq_pickBetterZ 5 b c
  refine ⟨?_, ?_, ?_⟩
  · simp only [spawnObstacle]
    rw [if_neg (by decide), if_neg (by decide), hsafe]
    have hidx : clampedIndex ((9 : ℚ) / 10)
        ([⟨1, 1⟩, ⟨2, 1⟩, ⟨3, 1⟩, ⟨1, 2⟩, ⟨2, 2⟩, ⟨3, 2⟩, ⟨1, 3⟩, ⟨2, 3⟩,
          ⟨3, 3⟩] : List Point).length = 8 := by
      unfold clampedIndex
      norm_num
      decide
    rw [hidx]
    decide
  · simp only [spawnObstacle]
    rw [if_neg (by decide), if_neg (by decide), hsafe]
    have hidx : clampedIndex (0 : ℚ)
        ([⟨1, 1⟩, ⟨2, 1⟩, ⟨3, 1⟩, ⟨1, 2⟩, ⟨2, 2⟩, ⟨3, 2⟩, ⟨1, 3⟩, ⟨2, 3⟩,
          ⟨3, 3⟩] : List Point).length = 0 := by
      unfold clampedIndex
      norm_num
    rw [hidx]
    decide
  · have hfs : firstSafeOptions [] 5
        = [⟨1, 1⟩, ⟨2, 1⟩, ⟨3, 1⟩, ⟨1, 2⟩, ⟨2, 2⟩, ⟨3, 2⟩, ⟨1, 3⟩, ⟨2, 3⟩,
           ⟨3, 3⟩] := hsafe
    rw [hfs]
    simp only [firstObstacleCandidate]
    rw [hpb]
    decide

/-- C9 amended: in `spawnObstacles` with count at least 1, the first
obstacle is chosen independently of the rng, and whenever a candidate
survives it is the surviving candidate with minimum Manhattan distance to
the board center, ties broken by smaller y then smaller x (`keyLe`). The
mid-game `spawnObstacle` is excluded: it picks randomly. -/
theorem c9_first_obstacle (snake : List Point) (size count : Int)
    (rng rng' : Rng) (hc : 1 ≤ count) :
    (spawnObstacles snake size count rng).head? =
      (spawnObstacles snake size count rng').head? ∧
    (firstSafeOptions snake size = [] →
      spawnObstacles snake size count rng = []) ∧
    (firstSafeOptions snake size ≠ [] →
      (spawnObstacles snake size count rng).head? =
        some (firstObstacleCandidate (firstSafeOptions snake size) size) ∧
      firstObstacleCandidate (firstSafeOptions snake size) size
        ∈ firstSafeOptions snake size ∧
      ∀ q ∈ firstSafeOptions snake size,
        keyLe size (firstObstacleCandidate (firstSafeOptions snake size) size)
          q) := by
  obtain ⟨m, hm⟩ : ∃ m, count.toNat = m + 1 := ⟨count.toNat - 1, by omega⟩
  have hneg : ¬ count ≤ 0 := by omega
  have hfs : firstSafeOptions snake size =
      ((allPoints size).filter
          (fun p => !(snake.contains p) ∧ isInnerPoint p size)).filter
        (fun p => !(createsAdditionalDeadEnds snake p size)) := rfl
  unfold spawnObstacles
  rw [if_neg hneg, if_neg hneg, hm]
  simp only [spawnObstaclesGo]
  by_cases h1 : ((allPoints size).filter
      (fun p => !(snake.contains p) ∧ isInnerPoint p size)).isEmpty = true
  · have hopts : (allPoints size).filter
        (fun p => !(snake.contains p) ∧ isInnerPoint p size) = [] := by
      simpa using h1
    have hsafe : firstSafeOptions snake size = [] := by
      rw [hfs, hopts]; rfl
    rw [if_pos h1, if_pos h1]
    exact ⟨rfl, fun _ => rfl, fun hne => absurd hsafe hne⟩
  · rw [if_neg h1, if_neg h1]
    by_cases h2 : (((allPoints size).filter
        (fun p => !(snake.contains p) ∧ isInnerPoint p size)).filter
          (fun p => !(createsAdditionalDeadEnds snake p size))).isEmpty = true
    · have hsafe : firstSafeOptions snake size = [] := by
        rw [hfs]; simpa using h2
      rw [if_pos h2, if_pos h2]
      exact ⟨rfl, fun _ => rfl, fun hne => absurd hsafe hne⟩
    · have hne : firstSafeOptions snake size ≠ [] := by
        rw [hfs]
        intro h
        rw [h] at h2
        exact h2 rfl
      obtain ⟨hmem, hmin⟩ :=
        firstObstacleCandidate_spec size (firstSafeOptions snake size) hne
      rw [if_neg h2, if_neg h2]
      simp only [if_true]
      refine ⟨rfl, fun h => absurd h hne, fun _ => ⟨?_, hmem, hmin⟩⟩
      rw [hfs]
      rfl

/-- C9 amended witness: on an empty 3-grid with budget 1, both rngs give
the single interior cell (1,1), which is the key-minimal survivor. -/
theorem c9_witness :
    (spawnObstacles [] 3 1 (fun _ => 0)).head? =
      (spawnObstacles [] 3 1 (fun _ => (1 : ℚ) / 2)).head? ∧
    (spawnObstacles [] 3 1 (fun _ => 0)).head? =
      some (firstObstacleCandidate (firstSafeOptions [] 3) 3) := by
  have h := c9_first_obstacle [] 3 1 (fun _ => 0) (fun _ => (1 : ℚ) / 2)
    (by decide)
  exact ⟨h.1, (h.2.2 (by decide)).1⟩

/-- C10 amended: `createInitialState` performs no input validation at all;
for every size and obstacle budget, including invalid ones, it returns a
GameState with status ready, the standard three-segment snake around
mid = size / 2 (floored), score 0 and fruit count 0. -/
theorem c10_no_validation (size obstacleCount : Int) (rng : Rng) :
    (createInitialState size obstacleCount rng).status = .ready ∧
    (createInitialState size obstacleCount rng).snake =
      [⟨size / 2, size / 2⟩, ⟨size / 2 - 1, size / 2⟩,
       ⟨size / 2 - 2, size / 2⟩] ∧
    (createInitialState size obstacleCount rng).score = 0 ∧
    (createInitialState size obstacleCount rng).fruitsEaten = 0 :=
  ⟨rfl, rfl, rfl, rfl⟩

/-- Wrapping is the identity on in-bounds coordinates. -/
theorem wrapPoint_id (a b size : Int) (h1 : 0 ≤ a) (h2 : a < size)
    (h3 : 0 ≤ b) (h4 : b < size) : wrapPoint ⟨a, b⟩ size = ⟨a, b⟩ := by
  unfold wrapPoint
  rw [point_eq_iff]
  simp only
  rw [Int.tmod_eq_emod (by omega) (by omega),
    Int.tmod_eq_emod (by omega) (by omega)]
  constructor
  · rw [show a + size = a + size * 1 by ring, Int.add_mul_emod_self_left,
      Int.emod_eq_of_lt h1 h2]
  · rw [show b + size = b + size * 1 by ring, Int.add_mul_emod_self_left,
      Int.emod_eq_of_lt h3 h4]

/-- On one coordinate: a wrapped value within two steps of an interior
coordinate equals it exactly when the raw values are equal (no aliasing
through the torus for boards of size at least 3). -/
theorem wrap_coord_eq_iff (size t a : Int) (hs : 3 ≤ size)
    (ht1 : 1 ≤ t) (ht2 : t ≤ size - 2) (ha1 : t - 2 ≤ a) (ha2 : a ≤ t + 2) :
    ((a + size).tmod size = t ↔ a = t) := by
  rw [Int.tmod_eq_emod (by omega) (by omega)]
  rw [show a + size = a + size * 1 by ring, Int.add_mul_emod_self_left]
  by_cases hlow : a < 0
  · have h1 : a = -1 := by omega
    rw [h1]
    have h2 : (-1 : Int) % size = size - 1 := by
      rw [show (-1 : Int) = (size - 1) + size * (-1) by ring,
        Int.add_mul_emod_self_left, Int.emod_eq_of_lt (by omega) (by omega)]
    rw [h2]
    omega
  · by_cases hhigh : size ≤ a
    · have h1 : a = size := by omega
      rw [h1, Int.emod_self]
      omega
    · rw [Int.emod_eq_of_lt (by omega) (by omega)]

/-- An interior cell occurs exactly once in the wrapped orthogonal
neighbor list of each of its orthogonal neighbors, provided size ≥ 3. -/
theorem count_center (size cx cy nx ny : Int) (hs : 3 ≤ size)
    (h1 : 1 ≤ cx) (h2 : cx ≤ size - 2) (h3 : 1 ≤ cy) (h4 : cy ≤ size - 2)
    (hadj : (nx = cx + 1 ∧ ny = cy) ∨ (nx = cx - 1 ∧ ny = cy) ∨
            (nx = cx ∧ ny = cy + 1) ∨ (nx = cx ∧ ny = cy - 1)) :
    (orthogonalNeighbors ⟨nx, ny⟩ size).count ⟨cx, cy⟩ = 1 := by
  have hiff : ∀ qx qy : Int, cx - 2 ≤ qx → qx ≤ cx + 2 → cy - 2 ≤ qy →
      qy ≤ cy + 2 →
      ((wrapPoint ⟨qx, qy⟩ size = ⟨cx, cy⟩) ↔ (qx = cx ∧ qy = cy)) := by
    intro qx qy hq1 hq2 hq3 hq4
    unfold wrapPoint
    rw [point_eq_iff]
    simp only
    rw [wrap_coord_eq_iff size cx qx hs (by omega) (by omega) (by omega)
      (by omega)]
    rw [wrap_coord_eq_iff size cy qy hs (by omega) (by omega) (by omega)
      (by omega)]
  have hite : ∀ qx qy : Int, cx - 2 ≤ qx → qx ≤ cx + 2 → cy - 2 ≤ qy →
      qy ≤ cy + 2 →
      ((if wrapPoint ⟨qx, qy⟩ size = (⟨cx, cy⟩ : Point) then (1 : ℕ) else 0)
        = if qx = cx ∧ qy = cy then 1 else 0) := by
    intro qx qy hq1 hq2 hq3 hq4
    by_cases h : wrapPoint ⟨qx, qy⟩ size = (⟨cx, cy⟩ : Point)
    · rw [if_pos h, if_pos ((hiff qx qy hq1 hq2 hq3 hq4).mp h)]
    · rw [if_neg h, if_neg (fun hh => h ((hiff qx qy hq1 hq2 hq3 hq4).mpr hh))]
  simp only [orthogonalNeighbors, List.count_cons, List.count_nil,
    beq_iff_eq]
  rcases hadj with ⟨e1, e2⟩ | ⟨e1, e2⟩ | ⟨e1, e2⟩ | ⟨e1, e2⟩ <;>
    subst e1 <;> subst e2 <;>
    rw [hite _ _ (by omega) (by omega) (by omega) (by omega),
      hite _ _ (by omega) (by omega) (by omega) (by omega),
      hite _ _ (by omega) (by omega) (by omega) (by omega),
      hite _ _ (by omega) (by omega) (by omega) (by omega)] <;>
    split_ifs <;> omega

/-- Blocking one cell that is not currently occupied splits a free-exit
count into the new count plus the multiplicity of that cell. -/
theorem countP_cons_occ (L occ : List Point) (c : Point) (hc : c ∉ occ) :
    L.countP (fun m => !((c :: occ).contains m)) + L.count c
      = L.countP (fun m => !(occ.contains m)) := by
  induction L with
  | nil => rfl
  | cons a t ih =>
    simp only [List.countP_cons, List.count_cons, beq_iff_eq]
    by_cases hac : a = c
    · subst hac
      have hmem : (a :: occ).contains a = true := by
        simp [List.elem_iff]
      have hnmem : occ.contains a = false := by
        rw [← Bool.not_eq_true, List.elem_iff]
        exact hc
      rw [hmem, hnmem]
      simp only [Bool.not_true, Bool.not_false]
      rw [if_neg (by simp : ¬(false = true))]
      simp only [if_true]
      omega
    · have hsame : ((c :: occ).contains a) = (occ.contains a) := by
        by_cases hm : a ∈ occ
        · have i1 : (c :: occ).contains a = true := by
            simp [List.elem_iff, hm]
          have i2 : occ.contains a = true := by simp [List.elem_iff, hm]
          rw [i1, i2]
        · have i1 : (c :: occ).contains a = false := by
            rw [← Bool.not_eq_true, List.elem_iff]
            simp [List.mem_cons, hac, hm]
          have i2 : occ.contains a = false := by
            rw [← Bool.not_eq_true, List.elem_iff]
            exact hm
          rw [i1, i2]
      rw [hsame, if_neg hac]
      omega

/-- Free-exit count after blocking a cell adjacent exactly once. -/
theorem freeExit_insert (occ : List Point) (c n : Point) (size : Int)
    (hcount : (orthogonalNeighbors n size).count c = 1) (hc : c ∉ occ) :
    freeExitCount n (c :: occ) size + 1 = freeExitCount n occ size := by
  unfold freeExitCount
  have h := countP_cons_occ (orthogonalNeighbors n size) occ c hc
  rw [hcount] at h
  exact h

/-- One step of the dead-end-delta fold on a neighbor not yet seen. -/
theorem deadEndDeltaStep_fresh (occ : List Point) (size : Int)
    (seen : List Point) (d : Int) (n : Point) (hn : n ∉ seen) :
    deadEndDeltaStep occ size (seen, d) n =
      ((if n ∈ occ then seen else n :: seen),
       d + neighborContrib occ size n) := by
  unfold deadEndDeltaStep neighborContrib
  by_cases h1 : n ∈ occ
  · rw [if_pos (Or.inr h1), if_pos h1, if_pos h1]
    simp
  · rw [if_neg (fun h => h.elim hn h1), if_neg h1, if_neg h1]
    simp only [Prod.mk.injEq, true_and]
    split_ifs <;> ring

/-- The dead-end-delta fold over pairwise fresh neighbors sums the
per-neighbor contributions. -/
theorem foldl_deadEndDelta (occ : List Point) (size : Int) (L : List Point) :
    ∀ (seen : List Point) (d : Int), (∀ n ∈ L, n ∉ seen) → L.Nodup →
    (L.foldl (deadEndDeltaStep occ size) (seen, d)).2 =
      d + (L.map (neighborContrib occ size)).sum := by
  induction L with
  | nil =>
    intro seen d _ _
    simp
  | cons a t ih =>
    intro seen d hfresh hnd
    simp only [List.foldl_cons, List.map_cons, List.sum_cons]
    rw [deadEndDeltaStep_fresh occ size seen d a (hfresh a (by simp))]
    rw [ih _ _ ?_ (List.nodup_cons.mp hnd).2]
    · ring
    · intro n hn
      have hna : n ≠ a := by
        intro h
        exact (List.nodup_cons.mp hnd).1 (h ▸ hn)
      split_ifs with hocc
      · exact hfresh n (List.mem_cons_of_mem _ hn)
      · simp only [List.mem_cons]
        push_neg
        exact ⟨hna, hfresh n (List.mem_cons_of_mem _ hn)⟩

/-- Indicator change at a neighbor when the candidate gets blocked. -/
theorem freeDeadInd_insert (occ : List Point) (c n : Point) (size : Int)
    (hne : n ≠ c) (hc : c ∉ occ)
    (hE : freeExitCount n (c :: occ) size + 1 = freeExitCount n occ size) :
    (freeDeadInd (c :: occ) size n : Int) - freeDeadInd occ size n =
      neighborContrib occ size n := by
  unfold freeDeadInd neighborContrib
  by_cases h1 : n ∈ occ
  · have h2 : n ∈ c :: occ := List.mem_cons_of_mem _ h1
    rw [if_pos h1, if_neg (fun h => h.1 h2), if_neg (fun h => h.1 h1)]
    ring
  · have h2 : n ∉ c :: occ := by
      simp only [List.mem_cons]
      push_neg
      exact ⟨hne, h1⟩
    rw [if_neg h1]
    simp only [h1, h2, not_false_iff, true_and]
    split_ifs <;> omega

/-- The candidate itself never counts after placement. -/
theorem candInd_after (occ : List Point) (c : Point) (size : Int) :
    freeDeadInd (c :: occ) size c = 0 := by
  unfold freeDeadInd
  rw [if_neg (fun h => h.1 (List.mem_cons_self _ _))]

/-- The candidate term of the dead-end delta is minus the candidate's
before-indicator. -/
theorem candInd_delta (occ : List Point) (c : Point) (size : Int)
    (hc : c ∉ occ) :
    (if freeExitCount c occ size ≤ 1 then (-1 : Int) else 0) =
      -(freeDeadInd occ size c : Int) := by
  unfold freeDeadInd
  simp only [hc, not_false_iff, true_and]
  split_ifs <;> simp

/-- C5 counterexample to the claim's literal count over all cells: with
occupied cells (2,0), (2,1), (3,1) on a 5-grid, the free interior
candidate (2,2) is accepted (the delta loop skips its occupied neighbor
(2,1)), yet placing the obstacle drops (2,1) from 2 free exits to 1 and
so raises the neighborhood's all-cell count of at-most-1-exit cells from
0 to 1. -/
theorem c5_counterexample :
    isInnerPoint ⟨2, 2⟩ 5 = true ∧
    createsAdditionalDeadEnds [⟨2, 0⟩, ⟨2, 1⟩, ⟨3, 1⟩] ⟨2, 2⟩ 5 = false ∧
    allCellDeadEndCount [⟨2, 0⟩, ⟨2, 1⟩, ⟨3, 1⟩] 5
        ((⟨2, 2⟩ : Point) :: orthogonalNeighbors ⟨2, 2⟩ 5) = 0 ∧
    allCellDeadEndCount
        ((⟨2, 2⟩ : Point) :: [⟨2, 0⟩, ⟨2, 1⟩, ⟨3, 1⟩]) 5
        ((⟨2, 2⟩ : Point) :: orthogonalNeighbors ⟨2, 2⟩ 5) = 1 := by
  refine ⟨?_, ?_, ?_, ?_⟩ <;> decide

/-- C5 amended: restricted to unoccupied cells the claim holds. Whenever
the obstacle planner accepts a free interior candidate
(`createsAdditionalDeadEnds` returns false), blocking that cell does not
increase the count of unoccupied cells with at most one unoccupied
orthogonal neighbor over the 5-cell neighborhood of the candidate and its
four orthogonal neighbors. The restriction is forced by the
counterexample: the delta loop skips occupied neighbors, so an occupied
cell of the neighborhood may newly fall to one exit. -/
theorem c5_deadend_monotone (occupied : List Point) (candidate : Point)
    (size : Int) (hin : isInnerPoint candidate size = true)
    (hacc : createsAdditionalDeadEnds occupied candidate size = false) :
    deadEndCount (candidate :: occupied) size
        (candidate :: orthogonalNeighbors candidate size) ≤
      deadEndCount occupied size
        (candidate :: orthogonalNeighbors candidate size) := by
  obtain ⟨cx, cy⟩ := candidate
  have hb : 1 ≤ cx ∧ cx ≤ size - 2 ∧ 1 ≤ cy ∧ cy ≤ size - 2 ∧ 3 ≤ size := by
    unfold isInnerPoint at hin
    simp only [decide_eq_true_eq] at hin
    omega
  obtain ⟨hb1, hb2, hb3, hb4, hb5⟩ := hb
  have hco : (⟨cx, cy⟩ : Point) ∉ occupied := by
    intro h
    unfold createsAdditionalDeadEnds at hacc
    rw [if_pos h] at hacc
    exact absurd hacc (by simp)
  have hn : orthogonalNeighbors ⟨cx, cy⟩ size =
      [⟨cx + 1, cy⟩, ⟨cx - 1, cy⟩, ⟨cx, cy + 1⟩, ⟨cx, cy - 1⟩] := by
    unfold orthogonalNeighbors
    simp only
    rw [wrapPoint_id (cx + 1) cy size (by omega) (by omega) (by omega)
        (by omega),
      wrapPoint_id (cx - 1) cy size (by omega) (by omega) (by omega)
        (by omega),
      wrapPoint_id cx (cy + 1) size (by omega) (by omega) (by omega)
        (by omega),
      wrapPoint_id cx (cy - 1) size (by omega) (by omega) (by omega)
        (by omega)]
  have hcnt1 : (orthogonalNeighbors ⟨cx + 1, cy⟩ size).count ⟨cx, cy⟩ = 1 :=
    count_center size cx cy (cx + 1) cy hb5 hb1 hb2 hb3 hb4
      (Or.inl ⟨rfl, rfl⟩)
  have hcnt2 : (orthogonalNeighbors ⟨cx - 1, cy⟩ size).count ⟨cx, cy⟩ = 1 :=
    count_center size cx cy (cx - 1) cy hb5 hb1 hb2 hb3 hb4
      (Or.inr (Or.inl ⟨rfl, rfl⟩))
  have hcnt3 : (orthogonalNeighbors ⟨cx, cy + 1⟩ size).count ⟨cx, cy⟩ = 1 :=
    count_center size cx cy cx (cy + 1) hb5 hb1 hb2 hb3 hb4
      (Or.inr (Or.inr (Or.inl ⟨rfl, rfl⟩)))
  have hcnt4 : (orthogonalNeighbors ⟨cx, cy - 1⟩ size).count ⟨cx, cy⟩ = 1 :=
    count_center size cx cy cx (cy - 1) hb5 hb1 hb2 hb3 hb4
      (Or.inr (Or.inr (Or.inr ⟨rfl, rfl⟩)))
  have hE1 := freeExit_insert occupied ⟨cx, cy⟩ ⟨cx + 1, cy⟩ size hcnt1 hco
  have hE2 := freeExit_insert occupied ⟨cx, cy⟩ ⟨cx - 1, cy⟩ size hcnt2 hco
  have hE3 := freeExit_insert occupied ⟨cx, cy⟩ ⟨cx, cy + 1⟩ size hcnt3 hco
  have hE4 := freeExit_insert occupied ⟨cx, cy⟩ ⟨cx, cy - 1⟩ size hcnt4 hco
  have hne1 : (⟨cx + 1, cy⟩ : Point) ≠ ⟨cx, cy⟩ := by
    simp only [ne_eq, Point.mk.injEq]
    omega
  have hne2 : (⟨cx - 1, cy⟩ : Point) ≠ ⟨cx, cy⟩ := by
    simp only [ne_eq, Point.mk.injEq]
    omega
  have hne3 : (⟨cx, cy + 1⟩ : Point) ≠ ⟨cx, cy⟩ := by
    simp only [ne_eq, Point.mk.injEq]
    omega
  have hne4 : (⟨cx, cy - 1⟩ : Point) ≠ ⟨cx, cy⟩ := by
    simp only [ne_eq, Point.mk.injEq]
    omega
  have hd1 := freeDeadInd_insert occupied ⟨cx, cy⟩ ⟨cx + 1, cy⟩ size hne1
    hco hE1
  have hd2 := freeDeadInd_insert occupied ⟨cx, cy⟩ ⟨cx - 1, cy⟩ size hne2
    hco hE2
  have hd3 := freeDeadInd_insert occupied ⟨cx, cy⟩ ⟨cx, cy + 1⟩ size hne3
    hco hE3
  have hd4 := freeDeadInd_insert occupied ⟨cx, cy⟩ ⟨cx, cy - 1⟩ size hne4
    hco hE4
  have hcafter := candInd_after occupied ⟨cx, cy⟩ size
  simp only [createsAdditionalDeadEnds, hn] at hacc
  rw [if_neg hco] at hacc
  rw [foldl_deadEndDelta occupied size
    [⟨cx + 1, cy⟩, ⟨cx - 1, cy⟩, ⟨cx, cy + 1⟩, ⟨cx, cy - 1⟩] [] 0
    (by simp) (by simp [point_eq_iff]; omega)] at hacc
  simp only [List.map_cons, List.map_nil, List.sum_cons, List.sum_nil,
    decide_eq_false_iff_not] at hacc
  rw [candInd_delta occupied ⟨cx, cy⟩ size hco] at hacc
  simp only [deadEndCount, hn, List.map_cons, List.map_nil, List.sum_cons,
    List.sum_nil, hcafter]
  omega

/-- C5 amended witness: the single interior cell of a 3-grid with empty
occupancy is accepted, and the restricted dead-end count over its
neighborhood does not grow. -/
theorem c5_witness :
    isInnerPoint ⟨1, 1⟩ 3 = true ∧
    createsAdditionalDeadEnds [] ⟨1, 1⟩ 3 = false ∧
    deadEndCount ((⟨1, 1⟩ : Point) :: []) 3
        ((⟨1, 1⟩ : Point) :: orthogonalNeighbors ⟨1, 1⟩ 3) ≤
      deadEndCount [] 3 ((⟨1, 1⟩ : Point) :: orthogonalNeighbors ⟨1, 1⟩ 3) :=
  ⟨by decide, by decide,
   c5_deadend_monotone [] ⟨1, 1⟩ 3 (by decide) (by decide)⟩

/-- Flood fill from a blocked seed visits nothing: the first dequeue hits
the blocked guard and the queue empties. -/
theorem floodFill_blocked (start : Point) (size : Int) (blocked : List Point)
    (h : start ∈ blocked) : floodFillCount start size blocked = 0 := by
  unfold floodFillCount
  have h2 : ∀ fuel, floodLoop size blocked (fuel + 1) [start] [] =
      floodLoop size blocked fuel [] [] := by
    intro fuel
    simp only [floodLoop]
    rw [if_pos (Or.inr h)]
  have h3 : ∀ fuel, floodLoop size blocked fuel ([] : List Point) [] = [] := by
    intro fuel
    cases fuel <;> rfl
  rw [show 4 * size.toNat * size.toNat + 2 =
    (4 * size.toNat * size.toNat + 1) + 1 from rfl, h2, h3]
  rfl

/-- Walking a path never shrinks the snake below its initial length. -/
theorem simulate_length_ge (snake path : List Point) (food : Point) :
    snake.length ≤ (simulateSnakePath snake path food).length := by
  unfold simulateSnakePath
  generalize path.drop 1 = steps
  induction steps generalizing snake with
  | nil => simp
  | cons a t ih =>
    simp only [List.foldl_cons]
    have hstep : snake.length ≤
        (if a = food then a :: snake else (a :: snake).dropLast).length := by
      split_ifs
      · simp only [List.length_cons]
        omega
      · simp only [List.length_dropLast, List.length_cons]
        omega
    exact le_trans hstep (ih _)

/-- The head of a list with at least two cells survives `dropLast`. -/
theorem headD_mem_dropLast (l : List Point) (d : Point) (h : 2 ≤ l.length) :
    l.headD d ∈ l.dropLast := by
  match l, h with
  | a :: b :: t, _ =>
    show a ∈ (a :: b :: t).dropLast
    rw [List.dropLast_cons_of_ne_nil (by simp)]
    exact List.mem_cons_self _ _

/-- The hypothetical head stays in the body-minus-tail blocked set of the
single-step snake whenever the snake has at least two segments. -/
theorem stepSnake_head_mem (snake : List Point) (nh food : Point)
    (h : 2 ≤ snake.length) : nh ∈ (stepSnake snake nh food).dropLast := by
  unfold stepSnake
  split_ifs
  · have := headD_mem_dropLast (nh :: snake) ⟨0, 0⟩
      (by simp only [List.length_cons]; omega)
    simpa using this
  · have hne : snake ≠ [] := by
      intro hnil
      rw [hnil] at h
      simp at h
    rw [List.dropLast_cons_of_ne_nil hne]
    have := headD_mem_dropLast (nh :: snake.dropLast) ⟨0, 0⟩
      (by simp only [List.length_cons, List.length_dropLast]; omega)
    simpa using this

/-- C3: `evaluateMove` returns none exactly when the requested direction
reverses the heading or the wrapped next head lands on the body minus the
tail cell or on an obstacle; hence every verdict it does return is for a
move the kernel's collision check would not reject. -/
theorem c3_evaluate_none_iff (state : GameState) (size : Int) (d : Direction)
    (hne : state.snake ≠ []) :
    (evaluateMove state size d = none ↔
      (isOpposite state.direction d = true ∨
       wrapPoint (movePoint (state.snake.headD ⟨0, 0⟩) d) size
         ∈ state.snake.dropLast ∨
       wrapPoint (movePoint (state.snake.headD ⟨0, 0⟩) d) size
         ∈ state.obstacles)) := by
  simp only [evaluateMove, List.headD_eq_head?_getD]
  by_cases hop : isOpposite state.direction d = true
  · simp [hop]
  · rw [if_neg hop]
    by_cases hmem : wrapPoint (movePoint (state.snake.head?.getD ⟨0, 0⟩) d)
        size ∈ state.snake.dropLast ++ state.obstacles
    · rw [if_pos hmem]
      simp only [List.mem_append] at hmem
      simp [hop, hmem]
    · rw [if_neg hmem]
      simp only [List.mem_append] at hmem
      push_neg at hmem
      have hr : ¬(isOpposite state.direction d = true ∨
          wrapPoint (movePoint (state.snake.head?.getD ⟨0, 0⟩) d) size
            ∈ state.snake.dropLast ∨
          wrapPoint (movePoint (state.snake.head?.getD ⟨0, 0⟩) d) size
            ∈ state.obstacles) := by
        simp [hop, hmem.1, hmem.2]
      cases hb : bfsPathWithTiming
          (wrapPoint (movePoint (state.snake.head?.getD ⟨0, 0⟩) d) size)
          state.food size
          (stepSnake state.snake
            (wrapPoint (movePoint (state.snake.head?.getD ⟨0, 0⟩) d) size)
            state.food)
          state.obstacles with
      | none =>
        exact iff_of_false (by simp) hr
      | some p =>
        exact iff_of_false (by simp) hr

/-- C3 witness: reversing the heading is rejected on a concrete state. -/
theorem c3_witness :
    evaluateMove
      { snake := [⟨1, 1⟩, ⟨0, 1⟩], direction := .right, food := ⟨3, 3⟩,
        obstacles := [], lastSpawnedObstacle := none, score := 0,
        fruitsEaten := 0, status := .running } 5 .left = none :=
  (c3_evaluate_none_iff _ 5 .left (by decide)).mpr (Or.inl (by decide))

/-- C4: whenever the snake has at least two segments, every verdict
`evaluateMove` returns carries `space = 0`, because the flood-fill seed
(the post-arrival head in the path branch, the hypothetical head in the
other branch) is itself in the blocked set handed to `floodFillCount`. -/
theorem c4_space_zero (state : GameState) (size : Int) (d : Direction)
    (h2 : 2 ≤ state.snake.length) (v : MoveEvaluation)
    (hv : evaluateMove state size d = some v) : v.space = 0 := by
  simp only [evaluateMove, List.headD_eq_head?_getD] at hv
  by_cases hop : isOpposite state.direction d = true
  · rw [if_pos hop] at hv
    exact absurd hv (by simp)
  · rw [if_neg hop] at hv
    by_cases hmem : wrapPoint (movePoint (state.snake.head?.getD ⟨0, 0⟩) d)
        size ∈ state.snake.dropLast ++ state.obstacles
    · rw [if_pos hmem] at hv
      exact absurd hv (by simp)
    · rw [if_neg hmem] at hv
      cases hb : bfsPathWithTiming
          (wrapPoint (movePoint (state.snake.head?.getD ⟨0, 0⟩) d) size)
          state.food size
          (stepSnake state.snake
            (wrapPoint (movePoint (state.snake.head?.getD ⟨0, 0⟩) d) size)
            state.food)
          state.obstacles with
      | some p =>
        rw [hb, Option.some_inj] at hv
        subst hv
        apply floodFill_blocked
        apply List.mem_append_left
        simp only [← List.headD_eq_head?_getD]
        apply headD_mem_dropLast
        exact le_trans h2 (simulate_length_ge _ _ _)
      | none =>
        rw [hb, Option.some_inj] at hv
        subst hv
        apply floodFill_blocked
        apply List.mem_append_left
        exact stepSnake_head_mem state.snake _ state.food h2

/-- C4 witness: a concrete verdict on a 3-grid has zero space. -/
theorem c4_witness :
    evaluateMove
      { snake := [⟨1, 1⟩, ⟨2, 1⟩], direction := .left, food := ⟨0, 2⟩,
        obstacles := [], lastSpawnedObstacle := none, score := 0,
        fruitsEaten := 0, status := .running } 3 .left =
      some ⟨.left, some 2, true, 0⟩ ∧
    (⟨.left, some 2, true, 0⟩ : MoveEvaluation).space = 0 := by
  have h : evaluateMove
      { snake := [⟨1, 1⟩, ⟨2, 1⟩], direction := .left, food := ⟨0, 2⟩,
        obstacles := [], lastSpawnedObstacle := none, score := 0,
        fruitsEaten := 0, status := .running } 3 .left =
      some ⟨.left, some 2, true, 0⟩ := by decide
  exact ⟨h, c4_space_zero _ 3 .left (by decide) _ h⟩

/-- Lookup in a consed association list. -/
theorem alookup_cons {α : Type} (k : Point) (v : α) (l : List (Point × α))
    (p : Point) :
    alookup ((k, v) :: l) p = if k = p then some v else alookup l p := rfl

/-- Admitting a fresh cell preserves the BFS invariant. -/
theorem bfsAdd_inv (start : Point) (FT : List (Point × Int)) (st : BfsState)
    (current next : Point) (dist : Int)
    (hinv : BfsInv start FT st)
    (hcur : alookup st.distances current = some dist)
    (hnc : alookup st.cameFrom next = none)
    (hft : ∀ f, alookup FT next = some f → f ≤ dist + 1) :
    BfsInv start FT
      ⟨st.queue ++ [next], (next, some current) :: st.cameFrom,
       (next, dist + 1) :: st.distances⟩ ∧
    alookup ((next, dist + 1) :: st.distances) current = some dist := by
  have hnd : alookup st.distances next = none := by
    rw [← Option.not_isSome_iff_eq_none]
    intro h
    rw [← Option.not_isSome_iff_eq_none] at hnc
    exact hnc ((hinv.keys next).mpr h)
  have hne_start : next ≠ start := by
    intro h
    rw [h, hinv.startParent] at hnc
    exact Option.noConfusion hnc
  have hne_cur : next ≠ current := by
    intro h
    rw [← h, hnd] at hcur
    exact Option.noConfusion hcur
  refine ⟨⟨?_, ?_, ?_, ?_, ?_, ?_, ?_⟩, ?_⟩
  · intro p
    rw [alookup_cons, alookup_cons]
    by_cases hp : next = p
    · simp [hp]
    · simp only [if_neg hp]
      exact hinv.keys p
  · rw [alookup_cons, if_neg hne_start]
    exact hinv.startParent
  · rw [alookup_cons, if_neg hne_start]
    exact hinv.startDist
  · intro p hp
    rw [alookup_cons] at hp
    by_cases hnp : next = p
    · rw [if_pos hnp] at hp
      exact Option.noConfusion (Option.some_inj.mp hp)
    · rw [if_neg hnp] at hp
      exact hinv.parentNone p hp
  · intro p q hpq
    rw [alookup_cons] at hpq
    by_cases hnp : next = p
    · rw [if_pos hnp] at hpq
      have hq : q = current := by
        have := Option.some_inj.mp hpq
        exact (Option.some_inj.mp this).symm
      refine ⟨dist + 1, dist, ?_, ?_, rfl, ?_⟩
      · rw [alookup_cons, if_pos hnp]
      · rw [alookup_cons, if_neg (hq ▸ hne_cur), hq]
        exact hcur
      · intro f hfp
        rw [← hnp] at hfp
        exact hft f hfp
    · rw [if_neg hnp] at hpq
      obtain ⟨dp, dq, h1, h2, h3, h4⟩ := hinv.parentSome p q hpq
      have hqn : next ≠ q := by
        intro h
        rw [← h, hnd] at h2
        exact Option.noConfusion h2
      exact ⟨dp, dq, by rw [alookup_cons, if_neg hnp]; exact h1,
        by rw [alookup_cons, if_neg hqn]; exact h2, h3, h4⟩
  · intro p hp
    rw [List.mem_append] at hp
    rw [alookup_cons]
    by_cases hnp : next = p
    · simp [hnp]
    · rw [if_neg hnp]
      rcases hp with hp | hp
      · exact hinv.queueKeys p hp
      · simp only [List.mem_singleton] at hp
        exact absurd hp.symm hnp
  · intro p dp hp
    rw [alookup_cons] at hp
    by_cases hnp : next = p
    · rw [if_pos hnp] at hp
      have := hinv.distNonneg current dist hcur
      have := Option.some_inj.mp hp
      omega
    · rw [if_neg hnp] at hp
      exact hinv.distNonneg p dp hp
  · rw [alookup_cons, if_neg hne_cur]
    exact hcur

/-- One neighbor-expansion step preserves the BFS invariant and the
current cell's recorded distance. -/
theorem bfsExpand_inv (start : Point) (FT : List (Point × Int))
    (obstacleList : List Point) (current : Point) (dist : Int)
    (st : BfsState) (next : Point)
    (hinv : BfsInv start FT st)
    (hcur : alookup st.distances current = some dist) :
    BfsInv start FT (bfsExpand obstacleList FT current dist st next) ∧
    alookup (bfsExpand obstacleList FT current dist st next).distances
      current = some dist := by
  unfold bfsExpand
  by_cases h1 : (alookup st.cameFrom next).isSome = true ∨ next ∈ obstacleList
  · rw [if_pos h1]
    exact ⟨hinv, hcur⟩
  · rw [if_neg h1]
    push_neg at h1
    have hnc : alookup st.cameFrom next = none :=
      Option.not_isSome_iff_eq_none.mp h1.1
    cases hft : alookup FT next with
    | some freeAt =>
      dsimp only
      by_cases harr : dist + 1 < freeAt
      · rw [if_pos harr]
        exact ⟨hinv, hcur⟩
      · rw [if_neg harr]
        exact bfsAdd_inv start FT st current next dist hinv hcur hnc
          (fun f hf => by
            rw [hft] at hf
            have := Option.some_inj.mp hf
            omega)
    | none =>
      dsimp only
      exact bfsAdd_inv start FT st current next dist hinv hcur hnc
        (fun f hf => by
          rw [hft] at hf
          exact Option.noConfusion hf)

/-- Expanding a whole neighbor list preserves the BFS invariant. -/
theorem bfsExpandList_inv (start : Point) (FT : List (Point × Int))
    (obstacleList : List Point) (current : Point) (dist : Int)
    (L : List Point) :
    ∀ (st : BfsState), BfsInv start FT st →
    alookup st.distances current = some dist →
    BfsInv start FT
      (L.foldl (bfsExpand obstacleList FT current dist) st) := by
  induction L with
  | nil =>
    intro st hinv _
    exact hinv
  | cons a t ih =>
    intro st hinv hcur
    simp only [List.foldl_cons]
    obtain ⟨h1, h2⟩ :=
      bfsExpand_inv start FT obstacleList current dist st a hinv hcur
    exact ih _ h1 h2

/-- The BFS main loop preserves the invariant for any fuel. -/
theorem bfsLoop_inv (start target : Point) (size : Int)
    (obstacleList : List Point) (FT : List (Point × Int)) (fuel : ℕ) :
    ∀ (st : BfsState), BfsInv start FT st →
    BfsInv start FT (bfsLoop target size obstacleList FT fuel st) := by
  induction fuel with
  | zero =>
    intro st hinv
    exact hinv
  | succ n ih =>
    intro st hinv
    obtain ⟨queue, cf, ds⟩ := st
    cases queue with
    | nil => exact hinv
    | cons current rest =>
      simp only [bfsLoop]
      by_cases htgt : current = target
      · rw [if_pos htgt]
        exact ⟨hinv.keys, hinv.startParent, hinv.startDist, hinv.parentNone,
          hinv.parentSome,
          fun p hp => hinv.queueKeys p (List.mem_cons_of_mem _ hp),
          hinv.distNonneg⟩
      · rw [if_neg htgt]
        have hsome := hinv.queueKeys current (List.mem_cons_self _ _)
        obtain ⟨dist0, hd⟩ := Option.isSome_iff_exists.mp hsome
        have hrest : BfsInv start FT ⟨rest, cf, ds⟩ :=
          ⟨hinv.keys, hinv.startParent, hinv.startDist, hinv.parentNone,
           hinv.parentSome,
           fun p hp => hinv.queueKeys p (List.mem_cons_of_mem _ hp),
           hinv.distNonneg⟩
        apply ih
        have hgd : (alookup ds current).getD 0 = dist0 := by
          rw [hd]
          rfl
        rw [hgd]
        exact bfsExpandList_inv start FT obstacleList current dist0 _
          ⟨rest, cf, ds⟩ hrest hd

/-- Walking parent pointers from a cell at distance d yields a chain of
exactly d + 1 cells whose j-th element sits at distance d - j. -/
theorem reconstructRev_spec (start : Point) (FT : List (Point × Int))
    (st : BfsState) (hinv : BfsInv start FT st) :
    ∀ (n : ℕ) (k : Point) (d : Int),
    alookup st.distances k = some d → d.toNat = n →
    (reconstructRev st.cameFrom (some k) (n + 1)).length = n + 1 ∧
    ∀ (j : ℕ) (p : Point),
      (reconstructRev st.cameFrom (some k) (n + 1))[j]? = some p →
      alookup st.distances p = some (d - j) := by
  intro n
  induction n with
  | zero =>
    intro k d hk hd0
    have hd : d = 0 := by
      have := hinv.distNonneg k d hk
      omega
    subst hd
    have hsome : (alookup st.cameFrom k).isSome :=
      (hinv.keys k).mpr (by rw [hk]; rfl)
    cases hcf : alookup st.cameFrom k with
    | none =>
      rw [hcf] at hsome
      exact absurd hsome (by simp)
    | some v =>
      cases v with
      | none =>
        simp only [reconstructRev, hcf, Option.join]
        refine ⟨rfl, fun j p hjp => ?_⟩
        cases j with
        | zero =>
          rw [List.getElem?_cons_zero] at hjp
          rw [Option.some_inj.mp hjp] at hk
          simpa using hk
        | succ j' =>
          rw [List.getElem?_cons_succ] at hjp
          exact absurd hjp (by cases j' <;> simp [reconstructRev])
      | some q =>
        obtain ⟨dp, dq, h1, h2, h3, _⟩ := hinv.parentSome k q hcf
        rw [hk] at h1
        have hdq := hinv.distNonneg q dq h2
        have := Option.some_inj.mp h1
        omega
  | succ m ih =>
    intro k d hk hdn
    have hdpos : 1 ≤ d := by
      have := hinv.distNonneg k d hk
      omega
    have hsome : (alookup st.cameFrom k).isSome =
        true := (hinv.keys k).mpr (by rw [hk]; rfl)
    cases hcf : alookup st.cameFrom k with
    | none =>
      rw [hcf] at hsome
      exact absurd hsome (by simp)
    | some v =>
      cases v with
      | none =>
        have hks := hinv.parentNone k hcf
        rw [hks, hinv.startDist] at hk
        have := Option.some_inj.mp hk
        omega
      | some q =>
        obtain ⟨dp, dq, h1, h2, h3, _⟩ := hinv.parentSome k q hcf
        have hdp : dp = d := by
          rw [hk] at h1
          exact (Option.some_inj.mp h1).symm
        have hdq : alookup st.distances q = some (d - 1) := by
          rw [show d - 1 = dq from by omega]
          exact h2
        obtain ⟨hlen, hidx⟩ := ih q (d - 1) hdq (by omega)
        have hj : (alookup st.cameFrom k).join = some q := by
          rw [hcf]
          rfl
        have hunfold : reconstructRev st.cameFrom (some k) (m + 1 + 1) =
            k :: reconstructRev st.cameFrom
              ((alookup st.cameFrom k).join) (m + 1) := rfl
        rw [hunfold, hj]
        constructor
        · rw [List.length_cons, hlen]
        · intro j p hjp
          cases j with
          | zero =>
            rw [List.getElem?_cons_zero] at hjp
            rw [Option.some_inj.mp hjp] at hk
            simpa using hk
          | succ j' =>
            rw [List.getElem?_cons_succ] at hjp
            have hres := hidx j' p hjp
            rw [show d - (j' + 1 : ℕ) = (d - 1) - j' from by push_cast; ring]
            exact hres

/-- C2: a path returned by `bfsPathWithTiming` never steps onto a cell
before its computed free time: for every index i of the path past the
start, a free-time entry f for that cell satisfies f ≤ i, the arrival
tick. `buildFreeTimes` records `snake.length - indexFromHead` per body
cell (later duplicates overwriting, as `Map.set` does). -/
theorem c2_bfs_timing (start target : Point) (size : Int)
    (snake obstacles : List Point) (path : List Point)
    (hpath : bfsPathWithTiming start target size snake obstacles = some path)
    (i : ℕ) (hi : 1 ≤ i) (p : Point) (hp : path[i]? = some p)
    (f : Int) (hf : alookup (buildFreeTimes snake) p = some f) :
    f ≤ (i : Int) := by
  have hinit : BfsInv start (buildFreeTimes snake)
      ⟨[start], [(start, none)], [(start, 0)]⟩ := by
    refine ⟨?_, ?_, ?_, ?_, ?_, ?_, ?_⟩
    · intro p'
      by_cases hsp : start = p' <;> simp [alookup, hsp]
    · simp [alookup]
    · simp [alookup]
    · intro p' hp'
      by_cases hsp : start = p'
      · exact hsp.symm
      · simp [alookup, hsp] at hp'
    · intro p' q hpq
      by_cases hsp : start = p' <;> simp [alookup, hsp] at hpq
    · intro p' hp'
      simp only [List.mem_singleton] at hp'
      subst hp'
      simp [alookup]
    · intro p' dp hdp
      by_cases hsp : start = p'
      · simp [alookup, hsp] at hdp
        omega
      · simp [alookup, hsp] at hdp
  simp only [bfsPathWithTiming] at hpath
  set final := bfsLoop target size obstacles (buildFreeTimes snake)
    (size.toNat * size.toNat + 1)
    ⟨[start], [(start, none)], [(start, 0)]⟩ with hfinaldef
  have hfin : BfsInv start (buildFreeTimes snake) final := by
    rw [hfinaldef]
    exact bfsLoop_inv start target size obstacles (buildFreeTimes snake)
      _ _ hinit
  by_cases hc : (alookup final.cameFrom target).isSome = true
  · rw [if_pos hc] at hpath
    obtain ⟨dt, hdt⟩ := Option.isSome_iff_exists.mp ((hfin.keys target).mp hc)
    rw [hdt] at hpath
    simp only [Option.getD_some] at hpath
    have hd0 : 0 ≤ dt := hfin.distNonneg target dt hdt
    obtain ⟨hlen, hidx⟩ := reconstructRev_spec start (buildFreeTimes snake)
      final hfin dt.toNat target dt hdt rfl
    have hpeq : path =
        (reconstructRev final.cameFrom (some target)
          (dt.toNat + 1)).reverse :=
      (Option.some_inj.mp hpath).symm
    subst hpeq
    have hibound : i < (reconstructRev final.cameFrom (some target)
        (dt.toNat + 1)).reverse.length := by
      by_contra hcon
      rw [List.getElem?_eq_none (by omega)] at hp
      exact Option.noConfusion hp
    rw [List.length_reverse, hlen] at hibound
    rw [List.getElem?_reverse (by rw [hlen]; omega)] at hp
    rw [hlen] at hp
    have hlook := hidx (dt.toNat + 1 - 1 - i) p hp
    have hlook2 : alookup final.distances p = some (i : Int) := by
      rw [show dt - ((dt.toNat + 1 - 1 - i : ℕ) : Int) = (i : Int) from
        by omega] at hlook
      exact hlook
    have hpsome : (alookup final.cameFrom p).isSome = true :=
      (hfin.keys p).mpr (by rw [hlook2]; rfl)
    cases hcfp : alookup final.cameFrom p with
    | none =>
      rw [hcfp] at hpsome
      exact absurd hpsome (by simp)
    | some v =>
      cases v with
      | none =>
        have hps := hfin.parentNone p hcfp
        rw [hps, hfin.startDist] at hlook2
        have := Option.some_inj.mp hlook2
        omega
      | some q =>
        obtain ⟨dp2, dq2, h1, h2, h3, h4⟩ := hfin.parentSome p q hcfp
        rw [hlook2] at h1
        have hdp2 : dp2 = (i : Int) := (Option.some_inj.mp h1).symm
        have hle := h4 f hf
        omega
  · rw [if_neg hc] at hpath
    exact absurd hpath (by simp)

/-- C2 witness: on a 4-grid the two-cell snake's tail has free time 1 and
the returned head-to-tail path arrives there exactly at tick 1. -/
theorem c2_witness :
    bfsPathWithTiming ⟨0, 0⟩ ⟨1, 0⟩ 4 [⟨0, 0⟩, ⟨1, 0⟩] [] =
      some [⟨0, 0⟩, ⟨1, 0⟩] ∧
    alookup (buildFreeTimes [⟨0, 0⟩, ⟨1, 0⟩]) ⟨1, 0⟩ = some 1 ∧
    (1 : Int) ≤ ((1 : ℕ) : Int) := by
  have h : bfsPathWithTiming ⟨0, 0⟩ ⟨1, 0⟩ 4 [⟨0, 0⟩, ⟨1, 0⟩] [] =
      some [⟨0, 0⟩, ⟨1, 0⟩] := by decide
  exact ⟨h, by decide,
    c2_bfs_timing ⟨0, 0⟩ ⟨1, 0⟩ 4 [⟨0, 0⟩, ⟨1, 0⟩] [] [⟨0, 0⟩, ⟨1, 0⟩] h 1
      (by decide) ⟨1, 0⟩ (by decide) 1 (by decide)⟩
